import Mathlib

/-!
Verification development for the md2docx Markdown converter
(`md2docx.py`).  The Python source works line-by-line on strings; we
embed lines as `List Char` and each Python string primitive as a small
recursive Lean function with matching semantics.  The block-parser state
machine (`convert_markdown`), the table-flush algorithm, the inline
formatter of both writer backends and the writers' block handling are
all translated directly from the source.
-/

set_option maxHeartbeats 1000000

namespace Md2docx

/-- A Python string, embedded as a list of characters. -/
abbrev Str := List Char

/-- Whitespace characters stripped by Python `str.strip()`. -/
def isPyWS (c : Char) : Bool :=
  c == ' ' || c == '\t' || c == '\n' || c == '\r' || c == '\x0b' || c == '\x0c'

/-- Python `str.strip()`: remove leading and trailing whitespace. -/
def pyStrip (s : Str) : Str :=
  ((s.dropWhile isPyWS).reverse.dropWhile isPyWS).reverse

/-- Python `line.rstrip('\r\n')`: remove trailing CR/LF characters. -/
def pyRstripNL (s : Str) : Str :=
  (s.reverse.dropWhile (fun c => c == '\r' || c == '\n')).reverse

/-- Python `s.startswith(p)`. -/
def startsWithS : Str → Str → Bool
  | _, [] => true
  | [], _ :: _ => false
  | c :: s, p :: ps => c == p && startsWithS s ps

/-- Python `s.endswith(p)`. -/
def endsWithS (s p : Str) : Bool :=
  startsWithS s.reverse p.reverse

/-- Python `pat in s` (substring containment). -/
def containsSub : Str → Str → Bool
  | [], pat => pat.isEmpty
  | c :: t, pat => startsWithS (c :: t) pat || containsSub t pat

/-- First occurrence of `pat` in `s`: `some (before, after)` such that
`s = before ++ pat ++ after` and `pat` does not occur earlier. -/
def splitFirst (pat : Str) : Str → Option (Str × Str)
  | [] => if pat.isEmpty then some ([], []) else none
  | c :: t =>
    if startsWithS (c :: t) pat then some ([], (c :: t).drop pat.length)
    else
      match splitFirst pat t with
      | some (pre, rest) => some (c :: pre, rest)
      | none => none

/-- Python `s.split('|')`. -/
def splitPipe : Str → List Str
  | [] => [[]]
  | c :: t =>
    if c == '|' then [] :: splitPipe t
    else
      match splitPipe t with
      | [] => [[c]]
      | h :: r => (c :: h) :: r

/-- Python `str.isdigit()` restricted to ASCII digits (the only digits
relevant to the claims; non-ASCII Unicode digits are not modelled). -/
def pyIsDigit (c : Char) : Bool :=
  '0' ≤ c && c ≤ '9'

/-- Python `os.path.join(d, p)` for a relative `p` (POSIX). -/
def pathJoin (d p : Str) : Str :=
  if d.isEmpty then p
  else if endsWithS d ['/'] then d ++ p
  else d ++ ['/'] ++ p

/-- The code-fence marker: three backticks. -/
def fenceMark : Str := ['\x60', '\x60', '\x60']

/-- The diagram-fence opening marker `"```mermaid"`. -/
def mermaidMark : Str := fenceMark ++ ['m', 'e', 'r', 'm', 'a', 'i', 'd']

/-- The header-divider detection string `'---'`. -/
def dashes : Str := ['-', '-', '-']

/-- `"]("`, the separator between alt text and target in an image line. -/
def joinMark : Str := [']', '(']

/-- Image source handed to a writer: a filesystem path, or rendered
bytes downloaded for a diagram block. -/
inductive ImageSrc where
  | path (p : Str)
  | bytes (b : Str)
  deriving DecidableEq

/-- A structural event emitted by the block parser to the document
writer — one constructor per writer call made by `convert_markdown`. -/
inductive Block where
  | heading (text : Str) (level : Nat)
  | paragraph (text : Str) (style : Option Str)
  | quote (text : Str)
  | table (rows cols : Nat) (data : List (List Str))
  | image (src : ImageSrc) (widthInches : Nat)
  | codeBlock (lines : List Str)
  | pageBreak
  deriving DecidableEq

/-- External collaborators of `convert_markdown`: the filesystem
(`os.path.exists`), the kroki diagram-rendering call (`None` models any
exception in the request/response path), and the directory of the
source document (`os.path.dirname(md_path)`). -/
structure Env where
  fileExists : Str → Bool
  render : List Str → Option Str
  mdDir : Str

/-- Mutable parser state of `convert_markdown`'s loop: the two fence
flags and the three line buffers. -/
structure PState where
  inCode : Bool
  inMermaid : Bool
  mermaidLines : List Str
  tableLines : List Str
  codeBuffer : List Str
  deriving DecidableEq

/-- Initial parser state. -/
def initState : PState := ⟨false, false, [], [], []⟩

/-- `len([c for c in row.split('|') if c])`: the column count derived
from a row — the number of non-empty pipe-separated segments. -/
def tableCols (r : Str) : Nat :=
  ((splitPipe r).filter (fun c => !c.isEmpty)).length

/-- `[c.strip() for c in row.split('|') if c]`: the stripped non-empty
pipe-separated segments of a row. -/
def tableCells (r : Str) : List Str :=
  ((splitPipe r).filter (fun c => !c.isEmpty)).map pyStrip

/-- Pad a row's cells with empty strings up to `n` and truncate to `n`
(`while len(row_cells) < cols: row_cells.append("")` / `row_cells[:cols]`). -/
def tableRow (n : Nat) (r : Str) : List Str :=
  (tableCells r ++ List.replicate (n - (tableCells r).length) []).take n

/-- Table flush (`convert_markdown`, the `if table_lines:` body):
drop every buffered row containing `'---'`, and if any rows remain
build the table data from the pipe-separated segments. -/
def flushTable (tls : List Str) : List Block :=
  match tls.filter (fun r => !(containsSub r dashes)) with
  | [] => []
  | first :: rest =>
    [Block.table (first :: rest).length (tableCols first)
      ((first :: rest).map (tableRow (tableCols first)))]

/-- `if not os.path.isabs(image_path): image_path = os.path.join(...)`:
the target resolved against the source document's directory. -/
def resolveTarget (env : Env) (target : Str) : Str :=
  if startsWithS target ['/'] then target else pathJoin env.mdDir target

/-- The Japanese "image not found" prefix of the placeholder text. -/
def notFoundPre : Str := "[画像が見つかりません: ".toList

/-- The final resolution step of the image branch: make the target
absolute relative to the document directory, then either insert the
image or fall back to the not-found placeholder paragraph. -/
def imageResolve (env : Env) (target : Str) : List Block :=
  if env.fileExists (resolveTarget env target) then
    [Block.image (ImageSrc.path (resolveTarget env target)) 5]
  else [Block.paragraph (notFoundPre ++ resolveTarget env target ++ [']']) none]

/-- Extraction of the regex group 2: the target is the text up to the
first `')'` after the first `"]("`. -/
def imageTail (env : Env) (rest : Str) : List Block :=
  match splitFirst [')'] rest with
  | none => []
  | some (target, _) => imageResolve env target

/-- The image branch body: `re.match(r'!\[(.*?)\]\((.*?)\)', stripped)`.
Under the branch guards the regex always matches, taking the shortest
alt text (up to the first `"]("`) and the shortest target (up to the
following `')'`); a failed match emits nothing (`if match:`). -/
def imageEvents (env : Env) (stripped : Str) : List Block :=
  match splitFirst joinMark (stripped.drop 2) with
  | none => []
  | some (_alt, rest) => imageTail env rest

/-- Classification of a stripped line reached past the fence/table
checks: blank-skip, headings `#`–`####`, unordered and ordered list
markers, quote, image, paragraph fallback — in source order. -/
def classify (env : Env) (stripped : Str) : List Block :=
  if stripped.isEmpty then []
  else if startsWithS stripped ['#', ' '] then [Block.heading (stripped.drop 2) 1]
  else if startsWithS stripped ['#', '#', ' '] then [Block.heading (stripped.drop 3) 2]
  else if startsWithS stripped ['#', '#', '#', ' '] then [Block.heading (stripped.drop 4) 3]
  else if startsWithS stripped ['#', '#', '#', '#', ' '] then [Block.heading (stripped.drop 5) 4]
  else if startsWithS stripped ['*', ' '] || startsWithS stripped ['-', ' '] then
    [Block.paragraph (stripped.drop 2) (some "List Bullet".toList)]
  else if (stripped.headD ' ' |> pyIsDigit) && (stripped.drop 1).take 2 = ['.', ' '] then
    [Block.paragraph (stripped.drop 3) (some "List Number".toList)]
  else if startsWithS stripped ['>', ' '] then [Block.quote (stripped.drop 2)]
  else if startsWithS stripped ['!', '['] && containsSub stripped joinMark &&
      endsWithS stripped [')'] then
    imageEvents env stripped
  else [Block.paragraph stripped none]

/-- `raw_line = line.rstrip('\r\n')`. -/
def rawOf (line : Str) : Str := pyRstripNL line

/-- `stripped_line = raw_line.strip()`. -/
def strippedOf (line : Str) : Str := pyStrip (rawOf line)

/-- One iteration of `convert_markdown`'s `for line in lines:` loop:
fence handling first, then fence-body accumulation, then table
accumulation/flush, then line classification. -/
def step (env : Env) (s : PState) (line : Str) : PState × List Block :=
  let raw := rawOf line
  let stripped := strippedOf line
  if startsWithS stripped fenceMark then
    if startsWithS stripped mermaidMark then
      ({ s with inMermaid := true, mermaidLines := [] }, [])
    else if s.inMermaid then
      ({ s with inMermaid := false },
        if s.mermaidLines.isEmpty then []
        else
          match env.render s.mermaidLines with
          | some bytes => [Block.image (ImageSrc.bytes bytes) 6]
          | none => [Block.codeBlock s.mermaidLines])
    else if s.inCode then
      ({ s with inCode := false, codeBuffer := [] }, [Block.codeBlock s.codeBuffer])
    else
      ({ s with inCode := true }, [])
  else if s.inMermaid then
    ({ s with mermaidLines := s.mermaidLines ++ [raw] }, [])
  else if s.inCode then
    ({ s with codeBuffer := s.codeBuffer ++ [raw] }, [])
  else if startsWithS stripped ['|'] then
    ({ s with tableLines := s.tableLines ++ [stripped] }, [])
  else
    ({ s with tableLines := [] }, flushTable s.tableLines ++ classify env stripped)

/-- Run the loop over a list of lines, collecting the emitted blocks. -/
def runLines (env : Env) (s : PState) : List Str → PState × List Block
  | [] => (s, [])
  | l :: ls =>
    ((runLines env (step env s l).1 ls).1,
     (step env s l).2 ++ (runLines env (step env s l).1 ls).2)

/-- `convert_markdown` from reading the lines to the end of the loop:
a synthetic blank line is appended so a trailing table is flushed. -/
def convertMarkdown (env : Env) (lines : List Str) : List Block :=
  (runLines env initState (lines ++ [[]])).2

/-! ## Inline formatter -/

/-- The doubled emphasis marker `"**"`. -/
def starStar : Str := ['*', '*']

/-- The literal `"<br>"` tag converted to a newline by the docx
inline formatter. -/
def brTag : Str := ['<', 'b', 'r', '>']

/-- `re.split(r'(\*\*.*?\*\*)', text)`, fuelled so the kernel can
evaluate it: split the text at each leftmost-shortest `**…**` span,
keeping the matched spans as their own list entries. -/
def splitBoldF : Nat → Str → List Str
  | 0, s => [s]
  | fuel + 1, s =>
    match splitFirst starStar s with
    | none => [s]
    | some (pre, rest) =>
      match splitFirst starStar rest with
      | none => [s]
      | some (inner, after) =>
        pre :: (starStar ++ inner ++ starStar) :: splitBoldF fuel after

/-- `re.split(r'(\*\*.*?\*\*)', text)` with sufficient fuel. -/
def splitBold (s : Str) : List Str := splitBoldF s.length s

/-- Python `s.replace(pat, repl)` (all occurrences, left to right),
fuelled for kernel evaluation. -/
def replaceAllF (pat repl : Str) : Nat → Str → Str
  | 0, s => s
  | fuel + 1, s =>
    match splitFirst pat s with
    | none => s
    | some (pre, rest) => pre ++ repl ++ replaceAllF pat repl fuel rest

/-- Python `s.replace(pat, repl)` for a non-empty `pat`. -/
def replaceAll (pat repl s : Str) : Str := replaceAllF pat repl s.length s

/-- An RGB colour triple from the configuration file. -/
abbrev Color := Nat × Nat × Nat

/-- The configuration record, as read by the writers:
`fonts.bold.colors` and `fonts.heading.page_break_level`. -/
structure Cfg where
  boldColor : Color
  pageBreakLevel : Nat

/-- A docx text run produced by `DocxWriter.process_inline_formatting`
(and postprocessing in `add_quote`): its text, whether it is a bold
emphasis run, whether it was italicised, and its explicit colour. -/
structure Run where
  text : Str
  bold : Bool
  italic : Bool
  color : Option Color
  deriving DecidableEq

/-- One split part to at most one run: a `**…**` part becomes a bold
run in the bold colour with the markers removed; other non-empty parts
become plain runs; empty parts produce no run. -/
def mkRunPart (cfg : Cfg) (part : Str) : Option Run :=
  if startsWithS part starStar && endsWithS part starStar && decide (4 ≤ part.length) then
    some ⟨(part.drop 2).take (part.length - 4), true, false, some cfg.boldColor⟩
  else if !part.isEmpty then some ⟨part, false, false, none⟩
  else none

/-- `DocxWriter.process_inline_formatting`: replace `<br>` by a line
break, split on bold spans, and emit runs. -/
def processInline (cfg : Cfg) (text : Str) : List Run :=
  (splitBold (replaceAll brTag ['\n'] text)).filterMap (mkRunPart cfg)

/-- One character of Python `html.escape` (with quoting). -/
def escChar (c : Char) : Str :=
  if c == '&' then "&amp;".toList
  else if c == '<' then "&lt;".toList
  else if c == '>' then "&gt;".toList
  else if c == '"' then "&quot;".toList
  else if c == '\'' then "&#x27;".toList
  else [c]

/-- Concatenate the images of a character map over a string. -/
def concatMapS (f : Char → Str) : Str → Str
  | [] => []
  | c :: t => f c ++ concatMapS f t

/-- Python `html.escape(s)`. -/
def htmlEscape (s : Str) : Str := concatMapS escChar s

/-- Python `'{:02x}'.format(n)`: lowercase hex, zero-padded to width 2. -/
def pyHex02 (n : Nat) : Str :=
  let d := Nat.toDigits 16 n
  if d.length < 2 then '0' :: d else d

/-- `'#{:02x}{:02x}{:02x}'.format(*rgb)`. -/
def hexColor (c : Color) : Str :=
  '#' :: (pyHex02 c.1 ++ pyHex02 c.2.1 ++ pyHex02 c.2.2)

/-- The opening markup substituted for `**` by `PdfWriter._format_text`:
`<font color="#rrggbb"><b>`. -/
def fontOpen (cfg : Cfg) : Str :=
  "<font color=\"".toList ++ hexColor cfg.boldColor ++ "\"><b>".toList

/-- The closing markup `</b></font>`. -/
def fontClose : Str := "</b></font>".toList

/-- `re.sub(r'\*\*(.*?)\*\*', '<font …><b>\\1</b></font>', text)`,
fuelled for kernel evaluation. -/
def pdfBoldSubF (cfg : Cfg) : Nat → Str → Str
  | 0, s => s
  | fuel + 1, s =>
    match splitFirst starStar s with
    | none => s
    | some (pre, rest) =>
      match splitFirst starStar rest with
      | none => s
      | some (inner, after) =>
        pre ++ fontOpen cfg ++ inner ++ fontClose ++ pdfBoldSubF cfg fuel after

/-- The bold-span substitution of `PdfWriter._format_text`. -/
def pdfBoldSub (cfg : Cfg) (s : Str) : Str := pdfBoldSubF cfg s.length s

/-- The escaped form `"&lt;br&gt;"` searched for after HTML escaping. -/
def brEscTag : Str := "&lt;br&gt;".toList

/-- The replacement `"<br/>"`. -/
def brSlashTag : Str := "<br/>".toList

/-- `PdfWriter._format_text`: HTML-escape, restore literal `<br>` tags
as `<br/>`, then replace each `**…**` span by coloured bold markup. -/
def pdfFormatText (cfg : Cfg) (text : Str) : Str :=
  pdfBoldSub cfg (replaceAll brEscTag brSlashTag (htmlEscape text))

/-! ## Writer backends

Every docx item below materialises as at least one paragraph or table
of the `python-docx` document (`add_picture` and `add_page_break` both
add a paragraph), except that `add_code_block` with no lines returns
before adding anything; `is_first` in `DocxWriter.add_heading` is
`len(doc.paragraphs) == 0 and len(doc.tables) == 0`. -/

/-- Content added to the docx document by one writer call. -/
inductive DItem where
  | dheading (level : Nat) (pageBreakBefore : Bool) (runs : List Run)
  | dpara (runs : List Run)
  | dtable (cells : List (List (List Run)))
  | dcode (lines : List Str)
  | dpicture
  | dbreak
  deriving DecidableEq

/-- Python `line.replace('\t', '    ')`. -/
def tabExpand (s : Str) : Str :=
  concatMapS (fun c => if c == '\t' then "    ".toList else [c]) s

/-- The placeholder paragraph text of `DocxWriter.add_image`'s
exception handler. -/
def imageFailMsg : Str := "[Image insertion failed]".toList

/-- `DocxWriter`'s handling of one block event, parameterised by
`imgOk`, which models whether `doc.add_picture` succeeds on the given
image data. -/
def docxApply (cfg : Cfg) (imgOk : ImageSrc → Bool) (items : List DItem) :
    Block → List DItem
  | .heading t l =>
    items ++ [.dheading l (decide (l ≤ cfg.pageBreakLevel) && !items.isEmpty)
      (processInline cfg t)]
  | .paragraph t _style => items ++ [.dpara (processInline cfg t)]
  | .quote t => items ++ [.dpara ((processInline cfg t).map (fun r => { r with italic := true }))]
  | .table _r _c data =>
    items ++ [.dtable (data.map (fun row => row.map (processInline cfg))), .dpara []]
  | .image src _w =>
    if imgOk src then items ++ [.dpicture]
    else items ++ [.dpara [⟨imageFailMsg, false, false, none⟩]]
  | .codeBlock ls => if ls.isEmpty then items else items ++ [.dcode (ls.map tabExpand)]
  | .pageBreak => items ++ [.dbreak]

/-- Feed a block sequence to a fresh `DocxWriter`. -/
def docxRun (cfg : Cfg) (imgOk : ImageSrc → Bool) (bs : List Block) : List DItem :=
  bs.foldl (docxApply cfg imgOk) []

/-- A ReportLab flowable appended to `PdfWriter.story`. -/
inductive Flow where
  | fpar (text : Str) (pageBreakBefore : Bool)
  | fspacer
  | fdrawing
  | fimage
  | ftable (cells : List (List Str))
  | fpbreak
  deriving DecidableEq

/-- `'<br/>'.join(lines)` after tab expansion, HTML escaping and
space-to-`&nbsp;` replacement (`PdfWriter.add_code_block`). -/
def pdfCodeText (ls : List Str) : Str :=
  match ls.map (fun l =>
      concatMapS (fun c => if c == ' ' then "&nbsp;".toList else [c])
        (htmlEscape (tabExpand l))) with
  | [] => []
  | h :: t => t.foldl (fun acc l => acc ++ "<br/>".toList ++ l) h

/-- `PdfWriter`'s handling of one block event.  A heading is a
paragraph whose style sets `pageBreakBefore` when the level is at or
below the configured threshold and the story is non-empty; levels 1–2
add a rule drawing and spacer.  A failed image insertion appends
nothing (the exception is only printed). -/
def pdfApply (cfg : Cfg) (imgOk : ImageSrc → Bool) (story : List Flow) :
    Block → List Flow
  | .heading t l =>
    story ++ [.fpar (pdfFormatText cfg t) (decide (l ≤ cfg.pageBreakLevel) && !story.isEmpty)]
      ++ (if l ≤ 2 then [.fdrawing, .fspacer] else [])
  | .paragraph t style =>
    let isCode := style = some "No Spacing".toList ∨ style = some "Code".toList
    let t2 := if style = some "List Bullet".toList then "• ".toList ++ t else t
    let body :=
      if isCode then
        concatMapS (fun c => if c == ' ' then "&nbsp;".toList else [c])
          (pdfFormatText cfg (tabExpand t2))
      else pdfFormatText cfg t2
    story ++ [.fpar body false]
      ++ (if style = some "No Spacing".toList then [] else [.fspacer])
  | .quote t => story ++ [.fpar (pdfFormatText cfg t) false, .fspacer]
  | .table _r _c data =>
    story ++ [.ftable (data.map (fun row => row.map (pdfFormatText cfg))), .fspacer]
  | .image src _w => if imgOk src then story ++ [.fimage, .fspacer] else story
  | .codeBlock ls =>
    if ls.isEmpty then story else story ++ [.fspacer, .fpar (pdfCodeText ls) false, .fspacer]
  | .pageBreak => story ++ [.fpbreak]

/-- Feed a block sequence to a fresh `PdfWriter`. -/
def pdfRun (cfg : Cfg) (imgOk : ImageSrc → Bool) (bs : List Block) : List Flow :=
  bs.foldl (pdfApply cfg imgOk) []

/-! ## Basic lemmas about the string primitives -/

theorem startsWithS_nil (s : Str) : startsWithS s [] = true := by
  cases s <;> rfl

theorem startsWithS_append_self (p t : Str) : startsWithS (p ++ t) p = true := by
  induction p with
  | nil => simpa using startsWithS_nil t
  | cons c p ih => simp [startsWithS, ih]

theorem startsWithS_eq_append {s p : Str} (h : startsWithS s p = true) :
    s = p ++ s.drop p.length := by
  induction p generalizing s with
  | nil => simp
  | cons c p ih =>
    cases s with
    | nil => simp [startsWithS] at h
    | cons d t =>
      simp only [startsWithS, Bool.and_eq_true, beq_iff_eq] at h
      obtain ⟨rfl, h2⟩ := h
      simpa using ih h2

theorem startsWithS_length {s p : Str} (h : startsWithS s p = true) :
    p.length ≤ s.length := by
  conv_rhs => rw [startsWithS_eq_append h]
  simp

theorem splitFirst_eq {pat s pre rest : Str}
    (h : splitFirst pat s = some (pre, rest)) : s = pre ++ pat ++ rest := by
  induction s generalizing pre with
  | nil =>
    by_cases hp : pat.isEmpty <;> simp [splitFirst, hp] at h
    rcases h with ⟨rfl, rfl⟩
    simp_all [List.isEmpty_iff]
  | cons c t ih =>
    by_cases hs : startsWithS (c :: t) pat = true
    · rw [splitFirst, if_pos hs] at h
      obtain ⟨rfl, rfl⟩ := Prod.mk.injEq .. ▸ Option.some.injEq .. ▸ h
      simpa using startsWithS_eq_append hs
    · rw [splitFirst, if_neg hs] at h
      cases h2 : splitFirst pat t with
      | none => rw [h2] at h; exact absurd h (by simp)
      | some pr =>
        obtain ⟨pre2, rest2⟩ := pr
        rw [h2] at h
        simp only [Option.some.injEq, Prod.mk.injEq] at h
        obtain ⟨rfl, rfl⟩ := h
        simpa using ih h2

theorem splitFirst_length {pat s pre rest : Str}
    (h : splitFirst pat s = some (pre, rest)) :
    pre.length + pat.length + rest.length = s.length := by
  rw [splitFirst_eq h]; simp; omega

theorem splitFirst_of_head_notMem {c : Char} {pt x y : Str} (hx : c ∉ x) :
    splitFirst (c :: pt) (x ++ c :: (pt ++ y)) = some (x, y) := by
  induction x with
  | nil =>
    have hs : startsWithS (c :: (pt ++ y)) (c :: pt) = true := by
      have := startsWithS_append_self (c :: pt) y
      simpa using this
    simp only [List.nil_append, splitFirst]
    rw [if_pos hs]
    simp
  | cons d x ih =>
    have hdc : d ≠ c := fun h => hx (h ▸ List.mem_cons_self d x)
    have hx2 : c ∉ x := fun h => hx (List.mem_cons_of_mem d h)
    have hns : startsWithS (d :: (x ++ c :: (pt ++ y))) (c :: pt) = false := by
      simp [startsWithS, hdc]
    simp only [List.cons_append, splitFirst, List.append_eq]
    rw [if_neg (by simp [hns]), ih hx2]

theorem containsSub_nil_pat (s : Str) : containsSub s [] = true := by
  cases s <;> simp [containsSub, startsWithS]

theorem containsSub_append (x pat y : Str) :
    containsSub (x ++ (pat ++ y)) pat = true := by
  induction x with
  | nil =>
    cases pat with
    | nil => simpa using containsSub_nil_pat y
    | cons p ps =>
      have hs : startsWithS (p :: (ps ++ y)) (p :: ps) = true := by
        have := startsWithS_append_self (p :: ps) y
        simpa using this
      simp [containsSub, hs]
  | cons d x ih => simp [containsSub, ih]

theorem beq_false_of_ne {d c : Char} (h : d ≠ c) : (d == c) = false := by
  simpa using h

theorem pyIsDigit_beq_false {d : Char} (hd : pyIsDigit d = true) (c : Char)
    (hc : c < '0' ∨ '9' < c) : (d == c) = false := by
  simp only [pyIsDigit, Bool.and_eq_true, decide_eq_true_eq] at hd
  refine beq_false_of_ne fun h => ?_
  subst h
  rcases hc with hc | hc
  · exact absurd hd.1 (not_le_of_lt hc)
  · exact absurd hd.2 (not_le_of_lt hc)

theorem startsWithS_of_append {s p q : Str} (h : startsWithS s (p ++ q) = true) :
    startsWithS s p = true := by
  induction p generalizing s with
  | nil => exact startsWithS_nil s
  | cons c p ih =>
    cases s with
    | nil => simp [startsWithS] at h
    | cons d t =>
      simp only [List.cons_append, startsWithS, Bool.and_eq_true] at h ⊢
      exact ⟨h.1, ih h.2⟩

/-! ## Branch lemmas for `step` -/

theorem step_mermaid_open {env s line}
    (h : startsWithS (strippedOf line) mermaidMark = true) :
    step env s line = ({ s with inMermaid := true, mermaidLines := [] }, []) := by
  have hf : startsWithS (strippedOf line) fenceMark = true :=
    startsWithS_of_append (p := fenceMark) (by simpa [mermaidMark] using h)
  simp [step, hf, h]

theorem step_mermaid_close {env s line}
    (hf : startsWithS (strippedOf line) fenceMark = true)
    (hmm : startsWithS (strippedOf line) mermaidMark = false)
    (hm : s.inMermaid = true) :
    step env s line = ({ s with inMermaid := false },
      if s.mermaidLines.isEmpty then []
      else
        match env.render s.mermaidLines with
        | some bytes => [Block.image (ImageSrc.bytes bytes) 6]
        | none => [Block.codeBlock s.mermaidLines]) := by
  simp [step, hf, hmm, hm]

theorem step_code_close {env s line}
    (hf : startsWithS (strippedOf line) fenceMark = true)
    (hmm : startsWithS (strippedOf line) mermaidMark = false)
    (hm : s.inMermaid = false) (hc : s.inCode = true) :
    step env s line =
      ({ s with inCode := false, codeBuffer := [] }, [Block.codeBlock s.codeBuffer]) := by
  simp [step, hf, hmm, hm, hc]

theorem step_code_open {env s line}
    (hf : startsWithS (strippedOf line) fenceMark = true)
    (hmm : startsWithS (strippedOf line) mermaidMark = false)
    (hm : s.inMermaid = false) (hc : s.inCode = false) :
    step env s line = ({ s with inCode := true }, []) := by
  simp [step, hf, hmm, hm, hc]

theorem step_mermaid_body {env s line}
    (hf : startsWithS (strippedOf line) fenceMark = false)
    (hm : s.inMermaid = true) :
    step env s line = ({ s with mermaidLines := s.mermaidLines ++ [rawOf line] }, []) := by
  simp [step, hf, hm]

theorem step_code_body {env s line}
    (hf : startsWithS (strippedOf line) fenceMark = false)
    (hm : s.inMermaid = false) (hc : s.inCode = true) :
    step env s line = ({ s with codeBuffer := s.codeBuffer ++ [rawOf line] }, []) := by
  simp [step, hf, hm, hc]

theorem step_table_append {env s line}
    (hf : startsWithS (strippedOf line) fenceMark = false)
    (hm : s.inMermaid = false) (hc : s.inCode = false)
    (hp : startsWithS (strippedOf line) ['|'] = true) :
    step env s line = ({ s with tableLines := s.tableLines ++ [strippedOf line] }, []) := by
  simp [step, hf, hm, hc, hp]

theorem step_flush_classify {env s line}
    (hf : startsWithS (strippedOf line) fenceMark = false)
    (hm : s.inMermaid = false) (hc : s.inCode = false)
    (hp : startsWithS (strippedOf line) ['|'] = false) :
    step env s line =
      ({ s with tableLines := [] },
       flushTable s.tableLines ++ classify env (strippedOf line)) := by
  simp [step, hf, hm, hc, hp]

theorem runLines_append (env : Env) (s : PState) (xs ys : List Str) :
    runLines env s (xs ++ ys) =
      ((runLines env (runLines env s xs).1 ys).1,
       (runLines env s xs).2 ++ (runLines env (runLines env s xs).1 ys).2) := by
  induction xs generalizing s with
  | nil => simp [runLines]
  | cons l xs ih => simp [runLines, ih]

/-! ## Concrete test fixtures -/

/-- A concrete environment: no file exists, every diagram render
fails, the document directory is empty. -/
def env0 : Env := ⟨fun _ => false, fun _ => none, []⟩

/-- A concrete environment whose diagram render succeeds. -/
def envR : Env := ⟨fun _ => false, fun _ => some ['P', 'N', 'G'], []⟩

/-- A concrete configuration: bold colour (192,0,0), page breaks for
headings of level ≤ 2 (the default). -/
def cfg0 : Cfg := ⟨(192, 0, 0), 2⟩

/-- Number of buffers of the parser state that are currently active: an
open code fence, an open diagram fence, a non-empty table buffer. -/
def activeBuffers (s : PState) : Nat :=
  (if s.inCode then 1 else 0) + (if s.inMermaid then 1 else 0) +
    (if s.tableLines.isEmpty then 0 else 1)

/-! ## C1 — buffer exclusivity -/

/-- C1 counterexample: after the two document lines `"|a|"` and
`"```mermaid"`, the table buffer is non-empty *and* the parser is
inside a diagram fence: two buffers are active at once, because the
fence check runs before the table flush.  This refutes the claim that
entering a fence while another buffer is active is impossible. -/
theorem C1_two_buffers_active :
    activeBuffers ((runLines env0 initState ["|a|".toList, "```mermaid".toList]).1) = 2 ∧
      ¬ activeBuffers ((runLines env0 initState
        ["|a|".toList, "```mermaid".toList]).1) ≤ 1 := by
  decide

/-- C1 amended: each processed line is routed to at most one buffer
(at most one of the three buffers grows), and a table-buffer append
only happens when both fence flags are clear; but several buffers may
be simultaneously active, since opening a fence neither flushes a
pending table buffer nor closes an open code fence. -/
theorem C1_line_routed_to_at_most_one_buffer (env : Env) (s : PState) (line : Str) :
    ((if s.codeBuffer.length < (step env s line).1.codeBuffer.length then 1 else 0) +
     (if s.mermaidLines.length < (step env s line).1.mermaidLines.length then 1 else 0) +
     (if s.tableLines.length < (step env s line).1.tableLines.length then 1 else 0) ≤ 1) ∧
    (s.tableLines.length < (step env s line).1.tableLines.length →
      s.inCode = false ∧ s.inMermaid = false) := by
  by_cases hmm : startsWithS (strippedOf line) mermaidMark = true
  · rw [step_mermaid_open hmm]
    simp
  · have hmm2 : startsWithS (strippedOf line) mermaidMark = false := by
      simpa using hmm
    by_cases hf : startsWithS (strippedOf line) fenceMark = true
    · by_cases hm : s.inMermaid = true
      · rw [step_mermaid_close hf hmm2 hm]
        simp
      · have hm2 : s.inMermaid = false := by simpa using hm
        by_cases hc : s.inCode = true
        · rw [step_code_close hf hmm2 hm2 hc]
          simp
        · have hc2 : s.inCode = false := by simpa using hc
          rw [step_code_open hf hmm2 hm2 hc2]
          simp
    · have hf2 : startsWithS (strippedOf line) fenceMark = false := by simpa using hf
      by_cases hm : s.inMermaid = true
      · rw [step_mermaid_body hf2 hm]
        simp
      · have hm2 : s.inMermaid = false := by simpa using hm
        by_cases hc : s.inCode = true
        · rw [step_code_body hf2 hm2 hc]
          simp
        · have hc2 : s.inCode = false := by simpa using hc
          by_cases hp : startsWithS (strippedOf line) ['|'] = true
          · rw [step_table_append hf2 hm2 hc2 hp]
            simp [hm2, hc2]
          · have hp2 : startsWithS (strippedOf line) ['|'] = false := by simpa using hp
            rw [step_flush_classify hf2 hm2 hc2 hp2]
            simp

/-- Witness for the amended C1 at a concrete input: on the line
`"|a|"` from the initial state, the table buffer grows and both fence
flags are indeed clear. -/
theorem C1_line_routed_witness :
    initState.tableLines.length <
        ((step env0 initState ("|a|".toList)).1).tableLines.length ∧
      initState.inCode = false ∧ initState.inMermaid = false := by
  refine ⟨by decide, ?_⟩
  exact (C1_line_routed_to_at_most_one_buffer env0 initState ("|a|".toList)).2 (by decide)

/-! ## C2 — table flush -/

/-- C2 counterexample: the buffered row `"|x---y|"` carries real
content (the letters `x` and `y`), so by the claim it must be kept;
the code's filter `'---' not in r` nevertheless discards it, and the
flushed table has a single data row `["1","2"]`. -/
theorem C2_content_row_discarded :
    flushTable ["|x---y|".toList, "|1|2|".toList]
        = [Block.table 1 2 [["1".toList, "2".toList]]] ∧
      'x' ∈ "|x---y|".toList := by
  decide

/-- C2 amended: when the table buffer is flushed, every row containing
the substring `"---"` anywhere — pure divider or not — is discarded;
if no rows remain nothing is emitted; otherwise the column count is
the number of non-empty pipe-delimited segments of the first remaining
row, each emitted row consists of the trimmed non-empty segments
padded with empty cells or truncated to exactly that column count, and
the documented example `"|A|B|"`, `"|---|---|"`, `"|1|2|"` produces
one 2-column table whose data rows are `["A","B"]` and `["1","2"]`. -/
theorem C2_table_flush_algorithm (tls : List Str) :
    (tls.filter (fun r => !(containsSub r dashes)) = [] → flushTable tls = []) ∧
    (∀ first rest, tls.filter (fun r => !(containsSub r dashes)) = first :: rest →
      flushTable tls = [Block.table (first :: rest).length (tableCols first)
          ((first :: rest).map (tableRow (tableCols first)))] ∧
        ∀ row ∈ (first :: rest).map (tableRow (tableCols first)),
          row.length = tableCols first) ∧
    flushTable ["|A|B|".toList, "|---|---|".toList, "|1|2|".toList]
      = [Block.table 2 2 [["A".toList, "B".toList], ["1".toList, "2".toList]]] := by
  refine ⟨fun h => by simp [flushTable, h], fun first rest h => ⟨by simp [flushTable, h], ?_⟩,
    by decide⟩
  intro row hrow
  simp only [List.mem_map] at hrow
  obtain ⟨r, _, rfl⟩ := hrow
  simp only [tableRow, List.length_take, List.length_append, List.length_replicate]
  omega

/-- Witness for the amended C2: instantiated at the buffered rows
`"|x|"` (kept) and `"|--- |"` (discarded), the flush emits a single
one-column table with the single row `["x"]`, whose rows all have the
column count of the first kept row. -/
theorem C2_table_flush_witness :
    flushTable ["|x|".toList, "|--- |".toList]
        = [Block.table 1 1 [["x".toList]]] ∧
      ∀ row ∈ (["|x|".toList].map (tableRow (tableCols ("|x|".toList)))),
        row.length = tableCols ("|x|".toList) := by
  have h := (C2_table_flush_algorithm ["|x|".toList, "|--- |".toList]).2.1
    ("|x|".toList) [] (by decide)
  exact ⟨by rw [h.1]; decide, h.2⟩

/-! ## C3 — table count versus pipe runs -/

/-- A line whose stripped form starts with a pipe (it would be
appended to the table buffer in the Normal state). -/
def isPipeLine (l : Str) : Bool := startsWithS (strippedOf l) ['|']

/-- A line whose stripped form starts with the fence marker. -/
def isFenceLine (l : Str) : Bool := startsWithS (strippedOf l) fenceMark

/-- A line the table flush would discard: its stripped form contains
`"---"`. -/
def rowHasDashes (l : Str) : Bool := containsSub (strippedOf l) dashes

/-- Number of maximal contiguous runs of pipe-prefixed lines
(spec-side counting; `inRun` records whether a run is open). -/
def pipeRunsAux : List Str → Bool → Nat
  | [], inRun => if inRun then 1 else 0
  | l :: t, inRun =>
    if isPipeLine l then pipeRunsAux t true
    else (if inRun then 1 else 0) + pipeRunsAux t false

/-- Number of maximal contiguous runs of pipe-prefixed lines. -/
def pipeRuns (ls : List Str) : Nat := pipeRunsAux ls false

/-- Number of maximal pipe runs in which *every* row contains `"---"`
(spec-side counting; the state is `none` when no run is open, and
`some allDividers` when one is). -/
def divRunsAux : List Str → Option Bool → Nat
  | [], st => if st = some true then 1 else 0
  | l :: t, st =>
    if isPipeLine l then divRunsAux t (some (st.getD true && rowHasDashes l))
    else (if st = some true then 1 else 0) + divRunsAux t none

/-- Number of maximal pipe runs consisting solely of divider rows. -/
def divOnlyRuns (ls : List Str) : Nat := divRunsAux ls none

/-- Is a block a table? -/
def isTableBlock : Block → Bool
  | .table _ _ _ => true
  | _ => false

/-- Number of Table blocks in an emitted event sequence. -/
def countTables (bs : List Block) : Nat := bs.countP isTableBlock

/-- The divider state corresponding to the current table buffer. -/
def openState (tls : List Str) : Option Bool :=
  if tls.isEmpty then none else some (tls.all (fun r => containsSub r dashes))

theorem countTables_append (a b : List Block) :
    countTables (a ++ b) = countTables a + countTables b :=
  List.countP_append ..

theorem imageTail_no_table (env : Env) (r : Str) :
    countTables (imageTail env r) = 0 := by
  unfold imageTail
  cases h : splitFirst [')'] r with
  | none => simp [countTables]
  | some pr =>
    obtain ⟨tgt, rest⟩ := pr
    simp only [imageResolve]
    split_ifs <;> simp [countTables, isTableBlock]

theorem imageEvents_no_table (env : Env) (str : Str) :
    countTables (imageEvents env str) = 0 := by
  unfold imageEvents
  cases h : splitFirst joinMark (str.drop 2) with
  | none => simp [countTables]
  | some pr =>
    obtain ⟨a, r⟩ := pr
    exact imageTail_no_table env r

theorem classify_no_table (env : Env) (str : Str) :
    countTables (classify env str) = 0 := by
  unfold classify
  split_ifs <;> first
    | exact imageEvents_no_table env str
    | rfl

theorem filter_dashes_isEmpty (tls : List Str) :
    (tls.filter (fun r => !(containsSub r dashes))).isEmpty
      = tls.all (fun r => containsSub r dashes) := by
  induction tls with
  | nil => rfl
  | cons a l ih =>
    cases h : containsSub a dashes <;> simp [List.filter_cons, h, ih]

theorem flushTable_count (tls : List Str) :
    countTables (flushTable tls)
      = if (tls.filter (fun r => !(containsSub r dashes))).isEmpty then 0 else 1 := by
  unfold flushTable
  cases h : tls.filter (fun r => !(containsSub r dashes)) <;>
    simp [h, countTables, isTableBlock]

theorem flush_plus_div (tls : List Str) :
    countTables (flushTable tls) + (if openState tls = some true then 1 else 0)
      = if !tls.isEmpty then 1 else 0 := by
  rw [flushTable_count, filter_dashes_isEmpty]
  cases tls with
  | nil => simp [openState]
  | cons a l =>
    cases h : (a :: l).all (fun r => containsSub r dashes) <;>
      simp [openState, h]

theorem openState_append (tls : List Str) (x : Str) :
    openState (tls ++ [x]) = some ((openState tls).getD true && containsSub x dashes) := by
  cases tls with
  | nil => simp [openState]
  | cons a l => simp [openState, List.all_append, Bool.and_assoc]

theorem isEmpty_append_one (tls : List Str) (x : Str) :
    (tls ++ [x]).isEmpty = false := by
  cases tls <;> rfl

theorem runLines_tables (env : Env) :
    ∀ (ls : List Str) (s : PState), (∀ l ∈ ls, isFenceLine l = false) →
      s.inMermaid = false → s.inCode = false →
      countTables (runLines env s (ls ++ [[]])).2 + divRunsAux ls (openState s.tableLines)
        = pipeRunsAux ls (!s.tableLines.isEmpty) := by
  intro ls
  induction ls with
  | nil =>
    intro s _ hm hc
    have hstep : step env s [] =
        ({ s with tableLines := [] }, flushTable s.tableLines ++ classify env []) :=
      step_flush_classify rfl hm hc rfl
    simp only [List.nil_append, runLines, hstep, List.append_nil, divRunsAux, pipeRunsAux]
    rw [countTables_append, classify_no_table]
    simpa using flush_plus_div s.tableLines
  | cons l t ih =>
    intro s hno hm hc
    have hfl : startsWithS (strippedOf l) fenceMark = false :=
      hno l (List.mem_cons_self l t)
    have hno2 : ∀ x ∈ t, isFenceLine x = false := fun x hx => hno x (List.mem_cons_of_mem l hx)
    cases hp : isPipeLine l with
    | true =>
      have hstep := @step_table_append env s l hfl hm hc hp
      have ihh := ih { s with tableLines := s.tableLines ++ [strippedOf l] } hno2 hm hc
      simp only [List.cons_append, runLines, hstep, List.nil_append] at ihh ⊢
      rw [openState_append] at ihh
      simp only [divRunsAux, pipeRunsAux, hp, if_pos]
      simpa [rowHasDashes, isEmpty_append_one] using ihh
    | false =>
      have hstep := @step_flush_classify env s l hfl hm hc hp
      have ihh0 := ih { s with tableLines := [] } hno2 hm hc
      have ihh : countTables (runLines env { s with tableLines := [] } (t ++ [[]])).2
          + divRunsAux t none = pipeRunsAux t false := by
        simpa [openState] using ihh0
      clear ihh0
      have hfd := flush_plus_div s.tableLines
      simp only [List.cons_append, runLines, hstep, List.append_eq]
      rw [countTables_append, countTables_append, classify_no_table]
      simp only [divRunsAux, pipeRunsAux, hp, if_false, Bool.false_eq_true]
      omega

/-- C3 counterexample: in the document `"|a|"`, `"```"`, `"x"`,
`"```"`, `"|b|"` there are two maximal runs of pipe-prefixed lines and
no divider-only run, so the claim predicts two Table blocks; the code
emits one, because the fence check precedes the table flush and the
two runs are merged into a single buffered table. -/
theorem C3_fence_merges_runs :
    countTables (convertMarkdown env0
        ["|a|".toList, "```".toList, "x".toList, "```".toList, "|b|".toList]) = 1 ∧
      pipeRuns ["|a|".toList, "```".toList, "x".toList, "```".toList, "|b|".toList] = 2 ∧
      divOnlyRuns ["|a|".toList, "```".toList, "x".toList, "```".toList, "|b|".toList] = 0 ∧
      countTables (convertMarkdown env0
          ["|a|".toList, "```".toList, "x".toList, "```".toList, "|b|".toList])
        ≠ pipeRuns ["|a|".toList, "```".toList, "x".toList, "```".toList, "|b|".toList]
          - divOnlyRuns ["|a|".toList, "```".toList, "x".toList, "```".toList, "|b|".toList] := by
  decide

/-- C3 amended: for every document containing no fence-marker line,
the number of emitted Table blocks equals the number of maximal
contiguous runs of pipe-prefixed lines minus the number of such runs
in which every row contains the divider sequence `"---"` (stated
additively to avoid truncated subtraction). -/
theorem C3_table_count (env : Env) (ls : List Str)
    (h : ∀ l ∈ ls, isFenceLine l = false) :
    countTables (convertMarkdown env ls) + divOnlyRuns ls = pipeRuns ls := by
  have hrun := runLines_tables env ls initState h rfl rfl
  simpa [convertMarkdown, divOnlyRuns, pipeRuns, openState, initState] using hrun

/-- Witness for the amended C3 at a concrete fence-free document:
one pipe run containing a real row, so exactly one table. -/
theorem C3_table_count_witness :
    (∀ l ∈ ["|A|B|".toList, "|---|---|".toList, "|1|2|".toList, "done".toList],
        isFenceLine l = false) ∧
      countTables (convertMarkdown env0
          ["|A|B|".toList, "|---|---|".toList, "|1|2|".toList, "done".toList])
        + divOnlyRuns ["|A|B|".toList, "|---|---|".toList, "|1|2|".toList, "done".toList]
        = pipeRuns ["|A|B|".toList, "|---|---|".toList, "|1|2|".toList, "done".toList] :=
  ⟨by decide, C3_table_count env0 _ (by decide)⟩

/-! ## C5 — code fence round trip -/

theorem rawOf_append_eq (l : Str) :
    rawOf l ++ (l.reverse.takeWhile (fun c => c == '\r' || c == '\n')).reverse = l := by
  rw [rawOf, pyRstripNL, ← List.reverse_append, List.takeWhile_append_dropWhile,
    List.reverse_reverse]

/-- Stripping the terminators: `rstrip('\r\n')` leaves a prefix of the
line, and everything it removes is a CR or LF character. -/
theorem rawOf_strips_only_terminators (l : Str) :
    startsWithS l (rawOf l) = true ∧
      (l.drop (rawOf l).length).all (fun c => c == '\r' || c == '\n') = true := by
  have hall : ((l.reverse.takeWhile (fun c => c == '\r' || c == '\n')).reverse.all
      (fun c => c == '\r' || c == '\n')) = true := by
    simp only [List.all_eq_true, List.mem_reverse]
    intro c hc
    have := List.mem_takeWhile_imp hc
    simpa using this
  have h := rawOf_append_eq l
  generalize hr : rawOf l = r at h ⊢
  generalize ht : (l.reverse.takeWhile (fun c => c == '\r' || c == '\n')).reverse = rest at h hall
  rw [← h, List.drop_left]
  exact ⟨startsWithS_append_self r rest, hall⟩

theorem runLines_code_body (env : Env) :
    ∀ (content : List Str) (s : PState), s.inCode = true → s.inMermaid = false →
      (∀ l ∈ content, startsWithS (strippedOf l) fenceMark = false) →
      runLines env s content = ({ s with codeBuffer := s.codeBuffer ++ content.map rawOf }, []) := by
  intro content
  induction content with
  | nil => intro s _ _ _; simp [runLines]
  | cons l ls ih =>
    intro s hc hm hbody
    have hf : startsWithS (strippedOf l) fenceMark = false := hbody l (List.mem_cons_self l ls)
    have hstep := @step_code_body env s l hf hm hc
    have ihh := ih { s with codeBuffer := s.codeBuffer ++ [rawOf l] } hc hm
      (fun x hx => hbody x (List.mem_cons_of_mem l hx))
    simp [runLines, hstep, ihh]

/-- C5 confirmed: running the parser from a state outside any fence
(with an empty code buffer) over an opening fence line, body lines none
of which look like a fence, and a closing fence line emits exactly one
CodeBlock whose lines are the body lines with only their end-of-line
terminators removed; the line count is preserved, and for every line
the stripping keeps a prefix of the line and removes only CR/LF
characters, so leading, trailing and internal whitespace survive. -/
theorem C5_code_fence_round_trip (env : Env) (s : PState) (openL closeL : Str)
    (content : List Str)
    (hs1 : s.inCode = false) (hs2 : s.inMermaid = false) (hs3 : s.codeBuffer = [])
    (ho1 : startsWithS (strippedOf openL) fenceMark = true)
    (ho2 : startsWithS (strippedOf openL) mermaidMark = false)
    (hc1 : startsWithS (strippedOf closeL) fenceMark = true)
    (hc2 : startsWithS (strippedOf closeL) mermaidMark = false)
    (hbody : ∀ l ∈ content, startsWithS (strippedOf l) fenceMark = false) :
    (runLines env s (openL :: (content ++ [closeL]))).2
        = [Block.codeBlock (content.map rawOf)] ∧
      (content.map rawOf).length = content.length ∧
      ∀ l, startsWithS l (rawOf l) = true ∧
        (l.drop (rawOf l).length).all (fun c => c == '\r' || c == '\n') = true := by
  obtain ⟨sc, sm, sml, stl, scb⟩ := s
  replace hs1 : sc = false := hs1
  replace hs2 : sm = false := hs2
  replace hs3 : scb = [] := hs3
  subst hs1 hs2 hs3
  refine ⟨?_, content.length_map rawOf, fun l => rawOf_strips_only_terminators l⟩
  have hopen := @step_code_open env ⟨false, false, sml, stl, []⟩ openL ho1 ho2 rfl rfl
  have hbodyrun := runLines_code_body env content ⟨true, false, sml, stl, []⟩ rfl rfl hbody
  have hclose := @step_code_close env ⟨true, false, sml, stl, content.map rawOf⟩
    closeL hc1 hc2 rfl rfl
  simp only at hopen hbodyrun hclose
  simp only [List.nil_append] at hbodyrun
  simp only [runLines, hopen, runLines_append, hbodyrun, hclose]
  simp

/-- Witness for C5: the document `"```py"`, `"  x"`, `"```"` emits one
CodeBlock containing exactly the single line `"  x"`, indentation
preserved. -/
theorem C5_code_fence_witness :
    (runLines env0 initState ("```py".toList :: (["  x".toList] ++ ["```".toList]))).2
        = [Block.codeBlock ["  x".toList]] :=
  (C5_code_fence_round_trip env0 initState ("```py".toList) ("```".toList) ["  x".toList]
    (by decide) (by decide) (by decide) (by decide) (by decide) (by decide) (by decide)
    (by decide)).1

/-! ## Classification lemmas for single lines -/

theorem step_events_classify {env : Env} {s : PState} {line : Str}
    (hm : s.inMermaid = false) (hc : s.inCode = false) (ht : s.tableLines = [])
    (hf : startsWithS (strippedOf line) fenceMark = false)
    (hp : startsWithS (strippedOf line) ['|'] = false) :
    (step env s line).2 = classify env (strippedOf line) := by
  rw [step_flush_classify hf hm hc hp, ht]
  rfl

theorem classify_h1 (env : Env) (rest : Str) :
    classify env ('#' :: ' ' :: rest) = [Block.heading rest 1] := by
  simp [classify, startsWithS, startsWithS_nil]

theorem classify_h2 (env : Env) (rest : Str) :
    classify env ('#' :: '#' :: ' ' :: rest) = [Block.heading rest 2] := by
  simp [classify, startsWithS, startsWithS_nil]

theorem classify_h3 (env : Env) (rest : Str) :
    classify env ('#' :: '#' :: '#' :: ' ' :: rest) = [Block.heading rest 3] := by
  simp [classify, startsWithS, startsWithS_nil]

theorem classify_h4 (env : Env) (rest : Str) :
    classify env ('#' :: '#' :: '#' :: '#' :: ' ' :: rest) = [Block.heading rest 4] := by
  simp [classify, startsWithS, startsWithS_nil]

theorem classify_digit (env : Env) {d : Char} (rest : Str) (hd : pyIsDigit d = true) :
    classify env (d :: '.' :: ' ' :: rest)
      = [Block.paragraph rest (some "List Number".toList)] := by
  have h1 := pyIsDigit_beq_false hd '#' (by decide)
  have h2 := pyIsDigit_beq_false hd '*' (by decide)
  have h3 := pyIsDigit_beq_false hd '-' (by decide)
  simp [classify, startsWithS, startsWithS_nil, h1, h2, h3, hd]

theorem fence_false_of_digit {d : Char} (hd : pyIsDigit d = true) (r : Str) :
    startsWithS (d :: r) fenceMark = false := by
  have h := pyIsDigit_beq_false hd '\x60' (by decide)
  simp [startsWithS, fenceMark, h]

theorem pipe_false_of_digit {d : Char} (hd : pyIsDigit d = true) (r : Str) :
    startsWithS (d :: r) ['|'] = false := by
  have h := pyIsDigit_beq_false hd '|' (by decide)
  simp [startsWithS, startsWithS_nil, h]

/-! ## C7 — heading levels 1 to 4 -/

/-- C7 confirmed: in the Normal state with an empty table buffer, a
line whose stripped form is `k` hash characters (1 ≤ k ≤ 4) followed
by a space is emitted as a Heading of level `k` whose text is the
remainder after the marker; and the five-hash line `"##### E"` is not
heading syntax and is emitted as the Paragraph `"##### E"`. -/
theorem C7_heading_levels (env : Env) (s : PState) (line rest : Str)
    (hm : s.inMermaid = false) (hc : s.inCode = false) (ht : s.tableLines = []) :
    (strippedOf line = '#' :: ' ' :: rest →
      (step env s line).2 = [Block.heading rest 1]) ∧
    (strippedOf line = '#' :: '#' :: ' ' :: rest →
      (step env s line).2 = [Block.heading rest 2]) ∧
    (strippedOf line = '#' :: '#' :: '#' :: ' ' :: rest →
      (step env s line).2 = [Block.heading rest 3]) ∧
    (strippedOf line = '#' :: '#' :: '#' :: '#' :: ' ' :: rest →
      (step env s line).2 = [Block.heading rest 4]) ∧
    (step env0 initState ("##### E".toList)).2
      = [Block.paragraph ("##### E".toList) none] := by
  refine ⟨fun hst => ?_, fun hst => ?_, fun hst => ?_, fun hst => ?_, by decide⟩ <;>
    rw [step_events_classify hm hc ht (by rw [hst]; rfl) (by rw [hst]; rfl), hst] <;>
    first
      | exact classify_h1 env rest
      | exact classify_h2 env rest
      | exact classify_h3 env rest
      | exact classify_h4 env rest

/-- Witness for C7: `"# A"` parses as Heading(level 1, "A") and
`"#### D"` as Heading(level 4, "D"). -/
theorem C7_heading_witness :
    (step env0 initState ("# A".toList)).2 = [Block.heading ("A".toList) 1] ∧
      (step env0 initState ("#### D".toList)).2 = [Block.heading ("D".toList) 4] :=
  ⟨(C7_heading_levels env0 initState ("# A".toList) ("A".toList) rfl rfl rfl).1 (by decide),
   (C7_heading_levels env0 initState ("#### D".toList) ("D".toList) rfl rfl rfl).2.2.2.1
     (by decide)⟩

/-! ## C8 — ordered list markers -/

/-- C8 counterexample: the line `"0. item"` is recognized as an
ordered list item (`'0'.isdigit()` is true), so the recognized markers
are not exactly `1.` through `9.`: by the claim this line should have
fallen through to the Paragraph `"0. item"`, but it is emitted as a
list-number paragraph with text `"item"`. -/
theorem C8_zero_marker_recognized :
    (step env0 initState ("0. item".toList)).2
        = [Block.paragraph ("item".toList) (some "List Number".toList)] ∧
      (step env0 initState ("0. item".toList)).2
        ≠ [Block.paragraph ("0. item".toList) none] := by
  decide

/-- C8 amended: in the Normal state with an empty table buffer, the
ordered-list rule recognizes exactly the single-digit markers `0.`
through `9.` followed by a space (any character for which the digit
test is true, `0` included), emitting the remainder as a list-number
paragraph; multi-digit markers are not matched (`"10. item"` becomes a
plain Paragraph), and `"- item"` is an unordered (bullet) item. -/
theorem C8_ordered_list_markers (env : Env) (s : PState) (line : Str) {d : Char}
    (rest : Str) (hm : s.inMermaid = false) (hc : s.inCode = false)
    (ht : s.tableLines = []) :
    (pyIsDigit d = true → strippedOf line = d :: '.' :: ' ' :: rest →
      (step env s line).2 = [Block.paragraph rest (some "List Number".toList)]) ∧
    (step env0 initState ("10. item".toList)).2
      = [Block.paragraph ("10. item".toList) none] ∧
    (step env0 initState ("1. item".toList)).2
      = [Block.paragraph ("item".toList) (some "List Number".toList)] ∧
    (step env0 initState ("- item".toList)).2
      = [Block.paragraph ("item".toList) (some "List Bullet".toList)] := by
  refine ⟨fun hd hst => ?_, by decide, by decide, by decide⟩
  rw [step_events_classify hm hc ht (hst ▸ fence_false_of_digit hd _)
    (hst ▸ pipe_false_of_digit hd _), hst, classify_digit env rest hd]

/-- Witness for the amended C8: `"9. z"` is a digit-marker line and is
emitted as a list-number paragraph with text `"z"`. -/
theorem C8_ordered_list_witness :
    (step env0 initState ("9. z".toList)).2
      = [Block.paragraph ("z".toList) (some "List Number".toList)] :=
  (C8_ordered_list_markers env0 initState ("9. z".toList) (d := '9') ("z".toList)
    rfl rfl rfl).1 (by decide) (by decide)

/-! ## C9 — missing image placeholder -/

theorem endsWithS_append_one (x : Str) (c : Char) :
    endsWithS (x ++ [c]) [c] = true := by
  simp [endsWithS, startsWithS, startsWithS_nil, List.reverse_append]

theorem classify_image (env : Env) (alt tgt : Str) (halt : ']' ∉ alt)
    (htgt : ')' ∉ tgt) :
    classify env ('!' :: '[' :: (alt ++ ']' :: '(' :: (tgt ++ [')'])))
      = imageResolve env tgt := by
  have hcontains : containsSub ('!' :: '[' :: (alt ++ ']' :: '(' :: (tgt ++ [')'])))
      joinMark = true := by
    have := containsSub_append ('!' :: '[' :: alt) joinMark (tgt ++ [')'])
    simpa [joinMark] using this
  have hends : endsWithS ('!' :: '[' :: (alt ++ ']' :: '(' :: (tgt ++ [')'])))
      [')'] = true := by
    have := endsWithS_append_one ('!' :: '[' :: alt ++ ']' :: '(' :: tgt) ')'
    simpa using this
  have hsplit1 : splitFirst joinMark (alt ++ ']' :: '(' :: (tgt ++ [')']))
      = some (alt, tgt ++ [')']) := by
    have := @splitFirst_of_head_notMem ']' ['('] alt (tgt ++ [')']) halt
    simpa using this
  have hsplit2 : splitFirst [')'] (tgt ++ [')']) = some (tgt, []) := by
    have := @splitFirst_of_head_notMem ')' [] tgt [] htgt
    simpa using this
  simp [classify, startsWithS, hcontains, hends, imageEvents, hsplit1, imageTail, hsplit2]

/-- C9 confirmed: in the Normal state with an empty table buffer, an
image line `![alt](target)` (with an unambiguous alt text and target)
whose resolved target does not exist on the filesystem emits exactly
one Paragraph placeholder, with no image block and no failure; the
placeholder text contains the resolved path. -/
theorem C9_missing_image_placeholder (env : Env) (s : PState) (line alt tgt : Str)
    (hm : s.inMermaid = false) (hc : s.inCode = false) (ht : s.tableLines = [])
    (halt : ']' ∉ alt) (htgt : ')' ∉ tgt)
    (hst : strippedOf line = '!' :: '[' :: (alt ++ ']' :: '(' :: (tgt ++ [')'])))
    (hmiss : env.fileExists (resolveTarget env tgt) = false) :
    (step env s line).2
        = [Block.paragraph (notFoundPre ++ resolveTarget env tgt ++ [']']) none] ∧
      ∃ u v, notFoundPre ++ resolveTarget env tgt ++ [']']
        = u ++ resolveTarget env tgt ++ v := by
  refine ⟨?_, ⟨notFoundPre, [']'], rfl⟩⟩
  rw [step_events_classify hm hc ht (by rw [hst]; rfl) (by rw [hst]; rfl), hst,
    classify_image env alt tgt halt htgt]
  simp [imageResolve, hmiss]

/-- Witness for C9: `"![x](missing.png)"` with no existing files and
an empty document directory yields the placeholder paragraph
`"[画像が見つかりません: missing.png]"`. -/
theorem C9_missing_image_witness :
    (step env0 initState ("![x](missing.png)".toList)).2
      = [Block.paragraph (notFoundPre ++ resolveTarget env0 ("missing.png".toList)
          ++ [']']) none] :=
  (C9_missing_image_placeholder env0 initState ("![x](missing.png)".toList)
    ("x".toList) ("missing.png".toList) rfl rfl rfl (by decide) (by decide)
    (by decide) rfl).1

/-! ## C4 — recoverable content errors -/

/-- C4 counterexample: in the PDF backend a failed image insertion is
caught but emits nothing — the story stays empty, with no placeholder
paragraph, contradicting "a failed image insertion yields a visible
placeholder paragraph in both backends". -/
theorem C4_pdf_image_failure_no_placeholder :
    pdfRun cfg0 (fun _ => false) [Block.image (ImageSrc.path ("x".toList)) 5] = [] := by
  decide

/-- C4 amended: each recoverable content error is caught where it
occurs and the conversion continues: a failed image insertion yields
the placeholder paragraph `[Image insertion failed]` in the Docx
backend but adds nothing in the PDF backend (caught and logged only);
a failed diagram render or network call makes the parser emit a
fallback CodeBlock holding the original diagram source lines; a
missing referenced image file yields the backend-independent
placeholder Paragraph naming the resolved path. -/
theorem C4_recoverable_errors :
    (∀ (cfg : Cfg) (imgOk : ImageSrc → Bool) (items : List DItem) (src : ImageSrc)
      (w : Nat), imgOk src = false →
        docxApply cfg imgOk items (Block.image src w)
          = items ++ [DItem.dpara [⟨imageFailMsg, false, false, none⟩]]) ∧
    (∀ (cfg : Cfg) (imgOk : ImageSrc → Bool) (story : List Flow) (src : ImageSrc)
      (w : Nat), imgOk src = false →
        pdfApply cfg imgOk story (Block.image src w) = story) ∧
    (∀ (env : Env) (s : PState) (line : Str), s.inMermaid = true →
      s.mermaidLines ≠ [] → env.render s.mermaidLines = none →
      startsWithS (strippedOf line) fenceMark = true →
      startsWithS (strippedOf line) mermaidMark = false →
      (step env s line).2 = [Block.codeBlock s.mermaidLines]) ∧
    (∀ (env : Env) (tgt : Str), env.fileExists (resolveTarget env tgt) = false →
      imageResolve env tgt
        = [Block.paragraph (notFoundPre ++ resolveTarget env tgt ++ [']']) none]) := by
  refine ⟨fun cfg imgOk items src w h => by simp [docxApply, h],
    fun cfg imgOk story src w h => by simp [pdfApply, h],
    fun env s line hm hml hr hf hmm => ?_,
    fun env tgt h => by simp [imageResolve, h]⟩
  rw [step_mermaid_close hf hmm hm]
  have hempty : s.mermaidLines.isEmpty = false := by
    cases hml2 : s.mermaidLines with
    | nil => exact absurd hml2 hml
    | cons a l => rfl
  simp [hempty, hr]

/-- Witness for the amended C4: a failing image insertion on a fresh
Docx document and on a one-element PDF story, a failing diagram render
of the single source line `"graph"`, and a missing image `"m.png"`. -/
theorem C4_recoverable_errors_witness :
    docxApply cfg0 (fun _ => false) [] (Block.image (ImageSrc.path ("x".toList)) 5)
        = [] ++ [DItem.dpara [⟨imageFailMsg, false, false, none⟩]] ∧
      pdfApply cfg0 (fun _ => false) [Flow.fspacer]
        (Block.image (ImageSrc.path ("x".toList)) 5) = [Flow.fspacer] ∧
      (step env0 ⟨false, true, ["graph".toList], [], []⟩ ("```".toList)).2
        = [Block.codeBlock ["graph".toList]] ∧
      imageResolve env0 ("m.png".toList)
        = [Block.paragraph (notFoundPre ++ resolveTarget env0 ("m.png".toList)
            ++ [']']) none] :=
  ⟨C4_recoverable_errors.1 cfg0 (fun _ => false) [] (ImageSrc.path ("x".toList)) 5 rfl,
   C4_recoverable_errors.2.1 cfg0 (fun _ => false) [Flow.fspacer]
     (ImageSrc.path ("x".toList)) 5 rfl,
   C4_recoverable_errors.2.2.1 env0 ⟨false, true, ["graph".toList], [], []⟩
     ("```".toList) rfl (by decide) rfl (by decide) (by decide),
   C4_recoverable_errors.2.2.2 env0 ("m.png".toList) rfl⟩

/-! ## C6 — heading page breaks -/

/-- A block whose Docx rendering adds no paragraph and no table: only
the empty code block (`add_code_block` returns before adding). -/
def docxSilent : Block → Bool
  | .codeBlock [] => true
  | _ => false

/-- A block that appends nothing to the PDF story: an empty code block
or an image whose insertion fails. -/
def pdfSilent (imgOk : ImageSrc → Bool) : Block → Bool
  | .codeBlock [] => true
  | .image src _ => !imgOk src
  | _ => false

theorem isEmpty_append_cons {α : Type} (l : List α) (x : α) (xs : List α) :
    (l ++ x :: xs).isEmpty = false := by
  cases l <;> rfl

theorem docxApply_isEmpty (cfg : Cfg) (imgOk : ImageSrc → Bool) (items : List DItem)
    (b : Block) :
    (docxApply cfg imgOk items b).isEmpty = (items.isEmpty && docxSilent b) := by
  cases b with
  | image src w =>
    cases h : imgOk src <;> simp [docxApply, docxSilent, h, isEmpty_append_cons]
  | codeBlock ls =>
    cases ls <;> simp [docxApply, docxSilent, isEmpty_append_cons]
  | _ => simp [docxApply, docxSilent, isEmpty_append_cons]

theorem pdfApply_isEmpty (cfg : Cfg) (imgOk : ImageSrc → Bool) (story : List Flow)
    (b : Block) :
    (pdfApply cfg imgOk story b).isEmpty = (story.isEmpty && pdfSilent imgOk b) := by
  cases b with
  | image src w =>
    cases h : imgOk src <;> simp [pdfApply, pdfSilent, h, isEmpty_append_cons]
  | codeBlock ls =>
    cases ls <;> simp [pdfApply, pdfSilent, isEmpty_append_cons]
  | heading t l =>
    simp [pdfApply, pdfSilent, List.append_assoc, isEmpty_append_cons]
  | paragraph t st =>
    simp [pdfApply, pdfSilent, List.append_assoc, isEmpty_append_cons]
  | _ => simp [pdfApply, pdfSilent, isEmpty_append_cons]

theorem foldl_docx_isEmpty (cfg : Cfg) (imgOk : ImageSrc → Bool) :
    ∀ (bs : List Block) (items : List DItem),
      (bs.foldl (docxApply cfg imgOk) items).isEmpty
        = (items.isEmpty && bs.all docxSilent) := by
  intro bs
  induction bs with
  | nil => intro items; simp
  | cons b bs ih =>
    intro items
    simp [List.foldl_cons, ih, docxApply_isEmpty, Bool.and_assoc]

theorem foldl_pdf_isEmpty (cfg : Cfg) (imgOk : ImageSrc → Bool) :
    ∀ (bs : List Block) (story : List Flow),
      (bs.foldl (pdfApply cfg imgOk) story).isEmpty
        = (story.isEmpty && bs.all (pdfSilent imgOk)) := by
  intro bs
  induction bs with
  | nil => intro story; simp
  | cons b bs ih =>
    intro story
    simp [List.foldl_cons, ih, pdfApply_isEmpty, Bool.and_assoc]

theorem any_not_eq_not_all {α : Type} (p : α → Bool) (l : List α) :
    (l.any fun x => !p x) = !l.all p := by
  induction l with
  | nil => rfl
  | cons a l ih => simp [List.any_cons, List.all_cons, ih]

/-- C6 counterexample: an empty code block is an emitted block that
renders nothing, so a level-1 heading following it is not the first
emitted block, yet gets no page break in either backend — against the
claim that only the very first emitted block is exempt. -/
theorem C6_second_block_heading_no_break :
    docxRun cfg0 (fun _ => true) [Block.codeBlock [], Block.heading ("A".toList) 1]
        = [DItem.dheading 1 false [⟨"A".toList, false, false, none⟩]] ∧
      pdfRun cfg0 (fun _ => true) [Block.codeBlock [], Block.heading ("A".toList) 1]
        = [Flow.fpar ("A".toList) false, Flow.fdrawing, Flow.fspacer] ∧
      (1 : Nat) ≤ cfg0.pageBreakLevel := by
  decide

/-- C6 amended: in both backends a heading gets a page break before it
exactly when its level is at or below the configured break level *and*
some previously emitted block rendered visible content — where empty
code blocks (and, in the PDF backend, failed image insertions) render
nothing and therefore do not count as occupying the document. -/
theorem C6_heading_page_break (cfg : Cfg) (imgOk : ImageSrc → Bool) (bs : List Block)
    (t : Str) (l : Nat) :
    docxRun cfg imgOk (bs ++ [Block.heading t l])
        = docxRun cfg imgOk bs
          ++ [DItem.dheading l
              (decide (l ≤ cfg.pageBreakLevel) && bs.any fun b => !docxSilent b)
              (processInline cfg t)] ∧
      pdfRun cfg imgOk (bs ++ [Block.heading t l])
        = pdfRun cfg imgOk bs
          ++ [Flow.fpar (pdfFormatText cfg t)
              (decide (l ≤ cfg.pageBreakLevel) && bs.any fun b => !pdfSilent imgOk b)]
          ++ (if l ≤ 2 then [Flow.fdrawing, Flow.fspacer] else []) := by
  constructor
  · rw [docxRun, List.foldl_append]
    simp only [List.foldl_cons, List.foldl_nil, docxApply]
    rw [show (bs.foldl (docxApply cfg imgOk) []) = docxRun cfg imgOk bs from rfl,
      show (docxRun cfg imgOk bs).isEmpty = ([].isEmpty && bs.all docxSilent) from
        foldl_docx_isEmpty cfg imgOk bs [],
      any_not_eq_not_all]
    simp
  · rw [pdfRun, List.foldl_append]
    simp only [List.foldl_cons, List.foldl_nil, pdfApply]
    rw [show (bs.foldl (pdfApply cfg imgOk) []) = pdfRun cfg imgOk bs from rfl,
      show (pdfRun cfg imgOk bs).isEmpty = ([].isEmpty && bs.all (pdfSilent imgOk)) from
        foldl_pdf_isEmpty cfg imgOk bs [],
      any_not_eq_not_all]
    simp [List.append_assoc]

/-! ## C10 -- the inline formatter machinery -/

theorem splitBoldF_stable :
    ∀ (f1 f2 : Nat) (s : Str), s.length ≤ f1 → s.length ≤ f2 →
      splitBoldF f1 s = splitBoldF f2 s := by
  intro f1
  induction f1 with
  | zero =>
    intro f2 s h1 _
    have hs : s = [] := List.length_eq_zero.mp (Nat.le_zero.mp h1)
    subst hs
    cases f2 with
    | zero => rfl
    | succ f2 => simp [splitBoldF, starStar, splitFirst]
  | succ f1 ih =>
    intro f2 s h1 h2
    cases f2 with
    | zero =>
      have hs : s = [] := List.length_eq_zero.mp (Nat.le_zero.mp h2)
      subst hs
      simp [splitBoldF, starStar, splitFirst]
    | succ f2 =>
      cases hs1 : splitFirst starStar s with
      | none => simp [splitBoldF, hs1]
      | some pr =>
        obtain ⟨pre, rest⟩ := pr
        cases hs2 : splitFirst starStar rest with
        | none => simp [splitBoldF, hs1, hs2]
        | some pr2 =>
          obtain ⟨inner, after⟩ := pr2
          have l1 := splitFirst_length hs1
          have l2 := splitFirst_length hs2
          simp [starStar] at l1 l2
          simp only [splitBoldF, hs1, hs2]
          rw [ih f2 after (by omega) (by omega)]

theorem splitBold_cons_eq (s : Str) :
    splitBold s =
      match splitFirst starStar s with
      | none => [s]
      | some (pre, rest) =>
        match splitFirst starStar rest with
        | none => [s]
        | some (inner, after) =>
          pre :: (starStar ++ inner ++ starStar) :: splitBold after := by
  unfold splitBold
  cases s with
  | nil => simp [splitBoldF, starStar, splitFirst]
  | cons c t =>
    cases hs1 : splitFirst starStar (c :: t) with
    | none => simp [splitBoldF, hs1]
    | some pr =>
      obtain ⟨pre, rest⟩ := pr
      cases hs2 : splitFirst starStar rest with
      | none => simp [splitBoldF, hs1, hs2]
      | some pr2 =>
        obtain ⟨inner, after⟩ := pr2
        have l1 := splitFirst_length hs1
        have l2 := splitFirst_length hs2
        simp [starStar] at l1 l2
        simp only [List.length_cons, splitBoldF, hs1, hs2]
        rw [splitBoldF_stable t.length after.length after (by omega) (by omega)]

theorem replaceAllF_stable (c : Char) (pt r : Str) :
    ∀ (f1 f2 : Nat) (s : Str), s.length ≤ f1 → s.length ≤ f2 →
      replaceAllF (c :: pt) r f1 s = replaceAllF (c :: pt) r f2 s := by
  intro f1
  induction f1 with
  | zero =>
    intro f2 s h1 _
    have hs : s = [] := List.length_eq_zero.mp (Nat.le_zero.mp h1)
    subst hs
    cases f2 with
    | zero => rfl
    | succ f2 => simp [replaceAllF, splitFirst]
  | succ f1 ih =>
    intro f2 s h1 h2
    cases f2 with
    | zero =>
      have hs : s = [] := List.length_eq_zero.mp (Nat.le_zero.mp h2)
      subst hs
      simp [replaceAllF, splitFirst]
    | succ f2 =>
      cases hs1 : splitFirst (c :: pt) s with
      | none => simp [replaceAllF, hs1]
      | some pr =>
        obtain ⟨pre, rest⟩ := pr
        have l1 := splitFirst_length hs1
        simp at l1
        simp only [replaceAllF, hs1]
        rw [ih f2 rest (by omega) (by omega)]

theorem replaceAll_cons_eq (c : Char) (pt r : Str) (s : Str) :
    replaceAll (c :: pt) r s =
      match splitFirst (c :: pt) s with
      | none => s
      | some (pre, rest) => pre ++ r ++ replaceAll (c :: pt) r rest := by
  unfold replaceAll
  cases s with
  | nil => simp [replaceAllF, splitFirst]
  | cons a t =>
    cases hs1 : splitFirst (c :: pt) (a :: t) with
    | none => simp [replaceAllF, hs1]
    | some pr =>
      obtain ⟨pre, rest⟩ := pr
      have l1 := splitFirst_length hs1
      simp at l1
      simp only [List.length_cons, replaceAllF, hs1]
      rw [replaceAllF_stable c pt r t.length rest.length rest (by omega) (by omega)]

theorem pdfBoldSubF_stable (cfg : Cfg) :
    ∀ (f1 f2 : Nat) (s : Str), s.length ≤ f1 → s.length ≤ f2 →
      pdfBoldSubF cfg f1 s = pdfBoldSubF cfg f2 s := by
  intro f1
  induction f1 with
  | zero =>
    intro f2 s h1 _
    have hs : s = [] := List.length_eq_zero.mp (Nat.le_zero.mp h1)
    subst hs
    cases f2 with
    | zero => rfl
    | succ f2 => simp [pdfBoldSubF, starStar, splitFirst]
  | succ f1 ih =>
    intro f2 s h1 h2
    cases f2 with
    | zero =>
      have hs : s = [] := List.length_eq_zero.mp (Nat.le_zero.mp h2)
      subst hs
      simp [pdfBoldSubF, starStar, splitFirst]
    | succ f2 =>
      cases hs1 : splitFirst starStar s with
      | none => simp [pdfBoldSubF, hs1]
      | some pr =>
        obtain ⟨pre, rest⟩ := pr
        cases hs2 : splitFirst starStar rest with
        | none => simp [pdfBoldSubF, hs1, hs2]
        | some pr2 =>
          obtain ⟨inner, after⟩ := pr2
          have l1 := splitFirst_length hs1
          have l2 := splitFirst_length hs2
          simp [starStar] at l1 l2
          simp only [pdfBoldSubF, hs1, hs2]
          rw [ih f2 after (by omega) (by omega)]

theorem pdfBoldSub_cons_eq (cfg : Cfg) (s : Str) :
    pdfBoldSub cfg s =
      match splitFirst starStar s with
      | none => s
      | some (pre, rest) =>
        match splitFirst starStar rest with
        | none => s
        | some (inner, after) =>
          pre ++ fontOpen cfg ++ inner ++ fontClose ++ pdfBoldSub cfg after := by
  unfold pdfBoldSub
  cases s with
  | nil => simp [pdfBoldSubF, starStar, splitFirst]
  | cons c t =>
    cases hs1 : splitFirst starStar (c :: t) with
    | none => simp [pdfBoldSubF, hs1]
    | some pr =>
      obtain ⟨pre, rest⟩ := pr
      cases hs2 : splitFirst starStar rest with
      | none => simp [pdfBoldSubF, hs1, hs2]
      | some pr2 =>
        obtain ⟨inner, after⟩ := pr2
        have l1 := splitFirst_length hs1
        have l2 := splitFirst_length hs2
        simp [starStar] at l1 l2
        simp only [List.length_cons, pdfBoldSubF, hs1, hs2]
        rw [pdfBoldSubF_stable cfg t.length after.length after (by omega) (by omega)]
theorem splitFirst_none_of_head_notMem {c : Char} (pt : Str) {s : Str} (hs : c ∉ s) :
    splitFirst (c :: pt) s = none := by
  induction s with
  | nil => rfl
  | cons d t ih =>
    have hdc : d ≠ c := fun h => hs (h ▸ List.mem_cons_self d t)
    have ht : c ∉ t := fun h => hs (List.mem_cons_of_mem d h)
    have hns : startsWithS (d :: t) (c :: pt) = false := by
      simp [startsWithS, hdc]
    simp only [splitFirst]
    rw [if_neg (by simp [hns]), ih ht]

theorem splitFirst_append_left {c : Char} (pt : Str) {x : Str} (y : Str)
    (hx : c ∉ x) :
    splitFirst (c :: pt) (x ++ y)
      = (splitFirst (c :: pt) y).map (fun p => (x ++ p.1, p.2)) := by
  induction x with
  | nil =>
    cases h : splitFirst (c :: pt) y <;> simp [h]
  | cons d x ih =>
    have hdc : d ≠ c := fun h => hx (h ▸ List.mem_cons_self d x)
    have hx2 : c ∉ x := fun h => hx (List.mem_cons_of_mem d h)
    have hns : startsWithS (d :: (x ++ y)) (c :: pt) = false := by
      simp [startsWithS, hdc]
    simp only [List.cons_append, splitFirst, List.append_eq]
    rw [if_neg (by simp [hns]), ih hx2]
    cases h : splitFirst (c :: pt) y <;> simp [h]

theorem replaceAll_append {c : Char} (pt r : Str) {x : Str} (y : Str) (hx : c ∉ x) :
    replaceAll (c :: pt) r (x ++ y) = x ++ replaceAll (c :: pt) r y := by
  rw [replaceAll_cons_eq, splitFirst_append_left pt y hx]
  conv_rhs => rw [replaceAll_cons_eq]
  cases h : splitFirst (c :: pt) y with
  | none => simp
  | some pr =>
    obtain ⟨pre, rest⟩ := pr
    simp [List.append_assoc]

theorem replaceAll_id {c : Char} (pt r : Str) {s : Str} (hs : c ∉ s) :
    replaceAll (c :: pt) r s = s := by
  rw [replaceAll_cons_eq, splitFirst_none_of_head_notMem pt hs]

theorem splitBold_span {a b : Str} (z : Str) (ha : '*' ∉ a) (hb : '*' ∉ b) :
    splitBold (a ++ '*' :: '*' :: (b ++ '*' :: '*' :: z))
      = a :: (starStar ++ b ++ starStar) :: splitBold z := by
  have h1 : splitFirst starStar (a ++ '*' :: '*' :: (b ++ '*' :: '*' :: z))
      = some (a, b ++ '*' :: '*' :: z) := by
    have := @splitFirst_of_head_notMem '*' ['*'] a (b ++ '*' :: '*' :: z) ha
    simpa [starStar] using this
  have h2 : splitFirst starStar (b ++ '*' :: '*' :: z) = some (b, z) := by
    have := @splitFirst_of_head_notMem '*' ['*'] b z hb
    simpa [starStar] using this
  rw [splitBold_cons_eq]
  simp [h1, h2]

theorem endsWithS_append (x p : Str) : endsWithS (x ++ p) p = true := by
  simp [endsWithS, List.reverse_append, startsWithS_append_self]

theorem mkRunPart_plain (cfg : Cfg) {a : Str} (ha : '*' ∉ a) :
    mkRunPart cfg a = if a.isEmpty then none else some ⟨a, false, false, none⟩ := by
  cases a with
  | nil => rfl
  | cons d t =>
    have hd : (d == '*') = false :=
      beq_false_of_ne (fun h => ha (h ▸ List.mem_cons_self d t))
    simp [mkRunPart, startsWithS, starStar, hd]

theorem mkRunPart_bold (cfg : Cfg) (b : Str) :
    mkRunPart cfg (starStar ++ b ++ starStar)
      = some ⟨b, true, false, some cfg.boldColor⟩ := by
  have hstart : startsWithS (starStar ++ b ++ starStar) starStar = true := by
    have := startsWithS_append_self starStar (b ++ starStar)
    simpa [List.append_assoc] using this
  have hend : endsWithS (starStar ++ b ++ starStar) starStar = true :=
    endsWithS_append (starStar ++ b) starStar
  have hlen : (starStar ++ b ++ starStar).length = b.length + 4 := by
    simp [starStar]
  have hdec : decide (4 ≤ (starStar ++ b ++ starStar).length) = true := by
    rw [hlen]
    simp
  have hdrop : (starStar ++ b ++ starStar).drop 2 = b ++ starStar := by
    simp [starStar]
  have htake : (b ++ starStar).take ((starStar ++ b ++ starStar).length - 4) = b := by
    rw [hlen]
    simp
  simp only [mkRunPart, hstart, hend, hdec, Bool.and_self, Bool.true_and, if_pos,
    hdrop, htake]

theorem processInline_span (cfg : Cfg) {a b : Str} (z : Str)
    (ha : '*' ∉ a) (hb : '*' ∉ b) (ha2 : '<' ∉ a) (hb2 : '<' ∉ b) :
    processInline cfg (a ++ '*' :: '*' :: (b ++ '*' :: '*' :: z))
      = (if a.isEmpty then [] else [⟨a, false, false, none⟩])
        ++ ⟨b, true, false, some cfg.boldColor⟩ :: processInline cfg z := by
  have hshape : a ++ '*' :: '*' :: (b ++ '*' :: '*' :: z)
      = (a ++ '*' :: '*' :: (b ++ ['*', '*'])) ++ z := by
    simp [List.append_assoc]
  have hx : '<' ∉ a ++ '*' :: '*' :: (b ++ ['*', '*']) := by
    intro h
    simp only [List.mem_append, List.mem_cons] at h
    rcases h with h | h | h | h | h | h
    · exact ha2 h
    · exact absurd h (by decide)
    · exact absurd h (by decide)
    · exact hb2 h
    · exact absurd h (by decide)
    · exact absurd h (by decide)
  have hrepl : replaceAll brTag ['\n'] (a ++ '*' :: '*' :: (b ++ '*' :: '*' :: z))
      = a ++ '*' :: '*' :: (b ++ '*' :: '*' :: replaceAll brTag ['\n'] z) := by
    rw [hshape, show brTag = '<' :: ['b', 'r', '>'] from rfl,
      replaceAll_append ['b', 'r', '>'] ['\n'] z hx]
    simp [List.append_assoc]
  unfold processInline
  rw [hrepl, splitBold_span (replaceAll brTag ['\n'] z) ha hb]
  rw [List.filterMap_cons, List.filterMap_cons, mkRunPart_plain cfg ha,
    mkRunPart_bold cfg b]
  cases a with
  | nil => simp
  | cons d t => simp

theorem concatMapS_append (f : Char → Str) (x y : Str) :
    concatMapS f (x ++ y) = concatMapS f x ++ concatMapS f y := by
  induction x with
  | nil => rfl
  | cons c t ih => simp [concatMapS, ih]

theorem htmlEscape_id {x : Str} (hx : ∀ ch ∈ x, escChar ch = [ch]) :
    htmlEscape x = x := by
  unfold htmlEscape
  induction x with
  | nil => rfl
  | cons c t ih =>
    rw [concatMapS, hx c (List.mem_cons_self c t),
      ih (fun ch hch => hx ch (List.mem_cons_of_mem c hch))]
    rfl

theorem amp_notMem_of_escape_id {x : Str} (hx : ∀ ch ∈ x, escChar ch = [ch]) :
    '&' ∉ x := by
  intro h
  have := hx '&' h
  simp [escChar] at this

theorem star_escape_id : escChar '*' = ['*'] := by decide

theorem pdfFormatText_span (cfg : Cfg) {a b : Str} (z : Str)
    (ha1 : ∀ ch ∈ a, escChar ch = [ch]) (hb1 : ∀ ch ∈ b, escChar ch = [ch])
    (ha : '*' ∉ a) (hb : '*' ∉ b) :
    pdfFormatText cfg (a ++ '*' :: '*' :: (b ++ '*' :: '*' :: z))
      = a ++ fontOpen cfg ++ b ++ fontClose ++ pdfFormatText cfg z := by
  have hesc : htmlEscape (a ++ '*' :: '*' :: (b ++ '*' :: '*' :: z))
      = a ++ '*' :: '*' :: (b ++ '*' :: '*' :: htmlEscape z) := by
    unfold htmlEscape
    rw [show a ++ '*' :: '*' :: (b ++ '*' :: '*' :: z)
        = a ++ ('*' :: '*' :: b) ++ ('*' :: '*' :: z) from by simp,
      concatMapS_append, concatMapS_append]
    rw [show concatMapS escChar a = a from htmlEscape_id ha1]
    rw [show concatMapS escChar ('*' :: '*' :: b)
        = '*' :: '*' :: b from htmlEscape_id (by
          intro ch hch
          simp only [List.mem_cons] at hch
          rcases hch with rfl | rfl | hch
          · decide
          · decide
          · exact hb1 ch hch)]
    simp only [concatMapS, escChar]
    simp [List.append_assoc]
  have hampx : '&' ∉ a ++ '*' :: '*' :: (b ++ ['*', '*']) := by
    intro h
    simp only [List.mem_append, List.mem_cons] at h
    rcases h with h | h | h | h | h | h
    · exact amp_notMem_of_escape_id ha1 h
    · exact absurd h (by decide)
    · exact absurd h (by decide)
    · exact amp_notMem_of_escape_id hb1 h
    · exact absurd h (by decide)
    · exact absurd h (by decide)
  have hbr : replaceAll (brEscTag) (brSlashTag)
        (a ++ '*' :: '*' :: (b ++ '*' :: '*' :: htmlEscape z))
      = a ++ '*' :: '*' :: (b ++ '*' :: '*' ::
          replaceAll (brEscTag) (brSlashTag) (htmlEscape z)) := by
    rw [show a ++ '*' :: '*' :: (b ++ '*' :: '*' :: htmlEscape z)
        = (a ++ '*' :: '*' :: (b ++ ['*', '*'])) ++ htmlEscape z from by
          simp [List.append_assoc],
      show (brEscTag) = '&' :: ("lt;br&gt;".toList) from rfl,
      replaceAll_append ("lt;br&gt;".toList) (brSlashTag) (htmlEscape z) hampx]
    simp [List.append_assoc]
  unfold pdfFormatText
  rw [hesc, hbr, pdfBoldSub_cons_eq]
  have h1 : splitFirst starStar (a ++ '*' :: '*' :: (b ++ '*' :: '*' ::
      replaceAll (brEscTag) (brSlashTag) (htmlEscape z)))
      = some (a, b ++ '*' :: '*' ::
          replaceAll (brEscTag) (brSlashTag) (htmlEscape z)) := by
    have := @splitFirst_of_head_notMem '*' ['*'] a
      (b ++ '*' :: '*' :: replaceAll (brEscTag) (brSlashTag) (htmlEscape z)) ha
    simpa [starStar] using this
  have h2 : splitFirst starStar (b ++ '*' :: '*' ::
      replaceAll (brEscTag) (brSlashTag) (htmlEscape z))
      = some (b, replaceAll (brEscTag) (brSlashTag) (htmlEscape z)) := by
    have := @splitFirst_of_head_notMem '*' ['*'] b
      (replaceAll (brEscTag) (brSlashTag) (htmlEscape z)) hb
    simpa [starStar] using this
  simp [h1, h2, List.append_assoc]
/-- C10 confirmed: both backends push heading text, quote text and
every table cell through the same inline formatter as paragraph text
(`process_inline_formatting` in Docx, `_format_text` in PDF), and
that formatter renders every doubled-asterisk span as a bold run in
the configured emphasis colour with the `**` markers removed: in Docx
the span becomes a bold, bold-coloured run holding only the inner
text; in PDF it becomes `<font color="#…"><b>…</b></font>` markup
around the inner text. -/
theorem C10_inline_formatting_everywhere :
    (∀ (cfg : Cfg) (imgOk : ImageSrc → Bool) (items : List DItem) (t : Str) (l : Nat),
      docxApply cfg imgOk items (Block.heading t l)
        = items ++ [DItem.dheading l
            (decide (l ≤ cfg.pageBreakLevel) && !items.isEmpty) (processInline cfg t)] ∧
      docxApply cfg imgOk items (Block.quote t)
        = items ++ [DItem.dpara ((processInline cfg t).map
            fun r => { r with italic := true })] ∧
      docxApply cfg imgOk items (Block.paragraph t none)
        = items ++ [DItem.dpara (processInline cfg t)]) ∧
    (∀ (cfg : Cfg) (imgOk : ImageSrc → Bool) (items : List DItem) (r c : Nat)
      (data : List (List Str)),
      docxApply cfg imgOk items (Block.table r c data)
        = items ++ [DItem.dtable (data.map fun row => row.map (processInline cfg)),
            DItem.dpara []]) ∧
    (∀ (cfg : Cfg) (imgOk : ImageSrc → Bool) (story : List Flow) (t : Str) (l : Nat),
      pdfApply cfg imgOk story (Block.heading t l)
        = story ++ [Flow.fpar (pdfFormatText cfg t)
            (decide (l ≤ cfg.pageBreakLevel) && !story.isEmpty)]
          ++ (if l ≤ 2 then [Flow.fdrawing, Flow.fspacer] else []) ∧
      pdfApply cfg imgOk story (Block.quote t)
        = story ++ [Flow.fpar (pdfFormatText cfg t) false, Flow.fspacer] ∧
      pdfApply cfg imgOk story (Block.paragraph t none)
        = story ++ [Flow.fpar (pdfFormatText cfg t) false, Flow.fspacer]) ∧
    (∀ (cfg : Cfg) (imgOk : ImageSrc → Bool) (story : List Flow) (r c : Nat)
      (data : List (List Str)),
      pdfApply cfg imgOk story (Block.table r c data)
        = story ++ [Flow.ftable (data.map fun row => row.map (pdfFormatText cfg)),
            Flow.fspacer]) ∧
    (∀ (cfg : Cfg) (a b z : Str), '*' ∉ a → '*' ∉ b → '<' ∉ a → '<' ∉ b →
      processInline cfg (a ++ '*' :: '*' :: (b ++ '*' :: '*' :: z))
        = (if a.isEmpty then [] else [⟨a, false, false, none⟩])
          ++ ⟨b, true, false, some cfg.boldColor⟩ :: processInline cfg z) ∧
    (∀ (cfg : Cfg) (a b z : Str), (∀ ch ∈ a, escChar ch = [ch]) →
      (∀ ch ∈ b, escChar ch = [ch]) → '*' ∉ a → '*' ∉ b →
      pdfFormatText cfg (a ++ '*' :: '*' :: (b ++ '*' :: '*' :: z))
        = a ++ fontOpen cfg ++ b ++ fontClose ++ pdfFormatText cfg z) := by
  refine ⟨fun cfg imgOk items t l => ⟨rfl, rfl, ?_⟩,
    fun cfg imgOk items r c data => rfl,
    fun cfg imgOk story t l => ⟨rfl, ?_, ?_⟩,
    fun cfg imgOk story r c data => rfl,
    fun cfg a b z ha hb ha2 hb2 => processInline_span cfg z ha hb ha2 hb2,
    fun cfg a b z ha1 hb1 ha hb => pdfFormatText_span cfg z ha1 hb1 ha hb⟩
  · simp [docxApply]
  · simp [pdfApply]
  · simp [pdfApply]

/-- Witness for C10: the bold span of `"Hello **world** end"` in the
Docx formatter and of `"a **b** c"` in the PDF formatter, both at the
concrete configuration. -/
theorem C10_inline_formatting_witness :
    processInline cfg0 ("Hello ".toList ++ '*' :: '*' ::
        ("world".toList ++ '*' :: '*' :: " end".toList))
      = (if ("Hello ".toList : Str).isEmpty then [] else
          [⟨"Hello ".toList, false, false, none⟩])
        ++ ⟨"world".toList, true, false, some cfg0.boldColor⟩
          :: processInline cfg0 (" end".toList) ∧
    pdfFormatText cfg0 ("a ".toList ++ '*' :: '*' ::
        ("b".toList ++ '*' :: '*' :: " c".toList))
      = "a ".toList ++ fontOpen cfg0 ++ "b".toList ++ fontClose
        ++ pdfFormatText cfg0 (" c".toList) :=
  ⟨C10_inline_formatting_everywhere.2.2.2.2.1 cfg0 ("Hello ".toList) ("world".toList)
     (" end".toList) (by decide) (by decide) (by decide) (by decide),
   C10_inline_formatting_everywhere.2.2.2.2.2 cfg0 ("a ".toList) ("b".toList)
     (" c".toList) (by decide) (by decide) (by decide) (by decide)⟩

end Md2docx
